import Mathlib

/-!
Verification development for the `poster` repository: a bounded-concurrency
batch POST dispatcher (poster.go), its structured leveled logger
(internal/logger/logger.go), its configuration record (internal/config), and
the extended worker/statistics variant of the main program.

The Go code is shallowly embedded: pure fragments become Lean functions;
effectful steps (file reads, HTTP transport, file writes, clock reads) are
supplied as per-task oracle values; the files-channel is modelled as the list
of tasks a worker drains (channel closed-and-empty = end of list); machine
integers are modelled as `Nat`/`Int`.

Both `json.Valid` and `json.Indent` from Go's `encoding/json` are embedded
below via the package's shared state-machine scanner (scanner.go / indent.go),
since poster.go calls both.
-/

/-! ### Go `encoding/json` scanner (scanner.go) -/

/-- Entries of the scanner's parse stack (`parseObjectKey`,
`parseObjectValue`, `parseArrayValue`). The head of the list is the top of
the stack (Go appends at the end of a slice). -/
inductive ParseState where
  | objectKey
  | objectValue
  | arrayValue
deriving DecidableEq, Repr

/-- The scanner's `step` function pointer, one constructor per `state*`
function of scanner.go (`failed` is `stateError`). -/
inductive ScanState where
  | beginValue
  | beginValueOrEmpty
  | beginString
  | beginStringOrEmpty
  | endValue
  | endTop
  | inString
  | inStringEsc
  | inStringEscU
  | inStringEscU1
  | inStringEscU12
  | inStringEscU123
  | neg
  | num1
  | num0
  | numDot
  | numDot0
  | numE
  | numESign
  | numE0
  | litT
  | litTr
  | litTru
  | litF
  | litFa
  | litFal
  | litFals
  | litN
  | litNu
  | litNul
  | failed
deriving DecidableEq, Repr

/-- Return codes of the scanner's step functions (`scanContinue` …
`scanError`). -/
inductive ScanCode where
  | scanContinue
  | scanBeginLiteral
  | scanBeginObject
  | scanObjectKey
  | scanObjectValue
  | scanEndObject
  | scanBeginArray
  | scanArrayValue
  | scanEndArray
  | scanSkipSpace
  | scanEnd
  | scanErr
deriving DecidableEq, Repr

/-- The scanner state: current step function, parse stack, `endTop` flag and
whether `err` is set (the error message itself is irrelevant here). -/
structure Scanner where
  state : ScanState
  parseState : List ParseState
  endTop : Bool
  err : Bool
deriving DecidableEq, Repr

def initScanner : Scanner := ⟨.beginValue, [], false, false⟩

/-- Go `isSpace` of scanner.go. -/
def isSpace (c : Char) : Bool :=
  c = ' ' || c = '\t' || c = '\r' || c = '\n'

def isDigit (c : Char) : Bool := '0' ≤ c && c ≤ '9'

def isHexDig (c : Char) : Bool :=
  ('0' ≤ c && c ≤ '9') || ('a' ≤ c && c ≤ 'f') || ('A' ≤ c && c ≤ 'F')

/-- Go `s.error(c, msg)`: record the error and move to `stateError`, returning
`scanError`. -/
def mkErr (s : Scanner) : Scanner × ScanCode :=
  ({ s with state := .failed, err := true }, .scanErr)

def maxNestingDepth : Nat := 10000

/-- Go `pushParseState`: push an entry, succeeding with the given state/code
unless the depth limit is exceeded. -/
def pushParse (s : Scanner) (ps : ParseState) (succState : ScanState)
    (code : ScanCode) : Scanner × ScanCode :=
  let stack := ps :: s.parseState
  if stack.length ≤ maxNestingDepth then
    ({ s with parseState := stack, state := succState }, code)
  else
    mkErr { s with parseState := stack, state := succState }

/-- Go `popParseState`: pop the top entry; an empty stack completes the
top-level value. -/
def popParse (s : Scanner) (rest : List ParseState) : Scanner :=
  if rest.isEmpty then { s with parseState := rest, state := .endTop, endTop := true }
  else { s with parseState := rest, state := .endValue }

/-- Go `stateEndTop`: only spaces may follow the top-level value.  Note that the
Go function records the error but still returns `scanEnd` for the offending
byte. -/
def endTopStep (s : Scanner) (c : Char) : Scanner × ScanCode :=
  if isSpace c then (s, .scanEnd)
  else ({ s with state := .failed, err := true }, .scanEnd)

/-- Go `stateEndValue`. -/
def endValueStep (s : Scanner) (c : Char) : Scanner × ScanCode :=
  match s.parseState with
  | [] => endTopStep { s with state := .endTop, endTop := true } c
  | ps :: rest =>
    if isSpace c then ({ s with state := .endValue }, .scanSkipSpace)
    else
      match ps with
      | .objectKey =>
        if c = ':' then
          ({ s with parseState := .objectValue :: rest, state := .beginValue }, .scanObjectKey)
        else mkErr s
      | .objectValue =>
        if c = ',' then
          ({ s with parseState := .objectKey :: rest, state := .beginString }, .scanObjectValue)
        else if c = '}' then (popParse s rest, .scanEndObject)
        else mkErr s
      | .arrayValue =>
        if c = ',' then ({ s with state := .beginValue }, .scanArrayValue)
        else if c = ']' then (popParse s rest, .scanEndArray)
        else mkErr s

/-- Go `stateBeginValue`. -/
def beginValueStep (s : Scanner) (c : Char) : Scanner × ScanCode :=
  if isSpace c then (s, .scanSkipSpace)
  else if c = '{' then pushParse s .objectKey .beginStringOrEmpty .scanBeginObject
  else if c = '[' then pushParse s .arrayValue .beginValueOrEmpty .scanBeginArray
  else if c = '"' then ({ s with state := .inString }, .scanBeginLiteral)
  else if c = '-' then ({ s with state := .neg }, .scanBeginLiteral)
  else if c = '0' then ({ s with state := .num0 }, .scanBeginLiteral)
  else if c = 't' then ({ s with state := .litT }, .scanBeginLiteral)
  else if c = 'f' then ({ s with state := .litF }, .scanBeginLiteral)
  else if c = 'n' then ({ s with state := .litN }, .scanBeginLiteral)
  else if '1' ≤ c && c ≤ '9' then ({ s with state := .num1 }, .scanBeginLiteral)
  else mkErr s

/-- Go `stateBeginString`. -/
def beginStringStep (s : Scanner) (c : Char) : Scanner × ScanCode :=
  if isSpace c then (s, .scanSkipSpace)
  else if c = '"' then ({ s with state := .inString }, .scanBeginLiteral)
  else mkErr s

/-- Go `state0`: after reading the integer part of a number. -/
def num0Step (s : Scanner) (c : Char) : Scanner × ScanCode :=
  if c = '.' then ({ s with state := .numDot }, .scanContinue)
  else if c = 'e' || c = 'E' then ({ s with state := .numE }, .scanContinue)
  else endValueStep s c

/-- Go `stateESign`: after the exponent sign. -/
def numESignStep (s : Scanner) (c : Char) : Scanner × ScanCode :=
  if isDigit c then ({ s with state := .numE0 }, .scanContinue)
  else mkErr s

/-- One byte of input through the scanner (`s.step(s, c)`). -/
def scanStep (s : Scanner) (c : Char) : Scanner × ScanCode :=
  match s.state with
  | .beginValueOrEmpty =>
    if isSpace c then (s, .scanSkipSpace)
    else if c = ']' then endValueStep s c
    else beginValueStep s c
  | .beginValue => beginValueStep s c
  | .beginStringOrEmpty =>
    if isSpace c then (s, .scanSkipSpace)
    else if c = '}' then
      match s.parseState with
      | _ :: rest => endValueStep { s with parseState := .objectValue :: rest } c
      | [] => endValueStep s c
    else beginStringStep s c
  | .beginString => beginStringStep s c
  | .endValue => endValueStep s c
  | .endTop => endTopStep s c
  | .inString =>
    if c = '"' then ({ s with state := .endValue }, .scanContinue)
    else if c = '\\' then ({ s with state := .inStringEsc }, .scanContinue)
    else if c.toNat < 0x20 then mkErr s
    else (s, .scanContinue)
  | .inStringEsc =>
    if c = 'b' || c = 'f' || c = 'n' || c = 'r' || c = 't' || c = '\\' || c = '/' || c = '"' then
      ({ s with state := .inString }, .scanContinue)
    else if c = 'u' then ({ s with state := .inStringEscU }, .scanContinue)
    else mkErr s
  | .inStringEscU =>
    if isHexDig c then ({ s with state := .inStringEscU1 }, .scanContinue) else mkErr s
  | .inStringEscU1 =>
    if isHexDig c then ({ s with state := .inStringEscU12 }, .scanContinue) else mkErr s
  | .inStringEscU12 =>
    if isHexDig c then ({ s with state := .inStringEscU123 }, .scanContinue) else mkErr s
  | .inStringEscU123 =>
    if isHexDig c then ({ s with state := .inString }, .scanContinue) else mkErr s
  | .neg =>
    if c = '0' then ({ s with state := .num0 }, .scanContinue)
    else if '1' ≤ c && c ≤ '9' then ({ s with state := .num1 }, .scanContinue)
    else mkErr s
  | .num1 =>
    if isDigit c then ({ s with state := .num1 }, .scanContinue)
    else num0Step s c
  | .num0 => num0Step s c
  | .numDot =>
    if isDigit c then ({ s with state := .numDot0 }, .scanContinue)
    else mkErr s
  | .numDot0 =>
    if isDigit c then (s, .scanContinue)
    else if c = 'e' || c = 'E' then ({ s with state := .numE }, .scanContinue)
    else endValueStep s c
  | .numE =>
    if c = '+' || c = '-' then ({ s with state := .numESign }, .scanContinue)
    else numESignStep s c
  | .numESign => numESignStep s c
  | .numE0 =>
    if isDigit c then (s, .scanContinue)
    else endValueStep s c
  | .litT => if c = 'r' then ({ s with state := .litTr }, .scanContinue) else mkErr s
  | .litTr => if c = 'u' then ({ s with state := .litTru }, .scanContinue) else mkErr s
  | .litTru => if c = 'e' then ({ s with state := .endValue }, .scanContinue) else mkErr s
  | .litF => if c = 'a' then ({ s with state := .litFa }, .scanContinue) else mkErr s
  | .litFa => if c = 'l' then ({ s with state := .litFal }, .scanContinue) else mkErr s
  | .litFal => if c = 's' then ({ s with state := .litFals }, .scanContinue) else mkErr s
  | .litFals => if c = 'e' then ({ s with state := .endValue }, .scanContinue) else mkErr s
  | .litN => if c = 'u' then ({ s with state := .litNu }, .scanContinue) else mkErr s
  | .litNu => if c = 'l' then ({ s with state := .litNul }, .scanContinue) else mkErr s
  | .litNul => if c = 'l' then ({ s with state := .endValue }, .scanContinue) else mkErr s
  | .failed => (s, .scanErr)

/-- Run the scanner over a byte sequence, keeping only its state. -/
def scanChars (s : Scanner) (cs : List Char) : Scanner :=
  cs.foldl (fun s c => (scanStep s c).1) s

/-- Go `(*scanner).eof`: the verdict at end of input. -/
def eofCode (s : Scanner) : ScanCode :=
  if s.err then .scanErr
  else if s.endTop then .scanEnd
  else if (scanStep s ' ').1.endTop then .scanEnd
  else .scanErr

/-- Go `json.Valid` (`checkValid`): the whole input is exactly one JSON value.
`checkValid` aborts at the first `scanError`, but `stateError` is absorbing
and sets `err`, so checking `err` and `eof` after a full scan is
equivalent. -/
def jsonValid (cs : List Char) : Bool :=
  eofCode (scanChars initScanner cs) = .scanEnd

example : jsonValid ("\x7b\"a\":1\x7d".toList) = true := by decide
example : jsonValid ("\x7b\"a\":1,\x7d".toList) = false := by decide
example : jsonValid ("null".toList) = true := by decide
example : jsonValid ("".toList) = false := by decide
example : jsonValid ("[1,2.5e-3,\"x\\u00ff\"]".toList) = true := by decide
example : jsonValid ("\x7b\x7d trailing".toList) = false := by decide

/-! ### Go `json.Indent` (indent.go), as called by `saveResponse` with
prefix `""` and indent two spaces -/

/-- The indentation bookkeeping of `appendIndent`: output built so far,
the `needIndent` flag and the current `depth`. -/
structure IndentAcc where
  out : List Char
  needIndent : Bool
  depth : Nat
deriving DecidableEq, Repr

/-- Go `appendNewline(dst, "", "  ", depth)`: a newline followed by `depth`
copies of the two-space indent unit. -/
def appendNewline (out : List Char) (depth : Nat) : List Char :=
  out ++ '\n' :: (List.replicate depth ("  ".toList)).flatten

/-- The output side of one `appendIndent` loop iteration, given the byte
and the scanner's return code for it. -/
def indentOut (ia : IndentAcc) (c : Char) (v : ScanCode) : IndentAcc :=
  if v = .scanSkipSpace then ia
  else if v = .scanErr then ia
  else
    let ia :=
      if ia.needIndent && !(v = .scanEndObject) && !(v = .scanEndArray) then
        { ia with needIndent := false, depth := ia.depth + 1,
                  out := appendNewline ia.out (ia.depth + 1) }
      else ia
    if v = .scanContinue then { ia with out := ia.out ++ [c] }
    else if c = '{' || c = '[' then { ia with needIndent := true, out := ia.out ++ [c] }
    else if c = ',' then { ia with out := appendNewline (ia.out ++ [c]) ia.depth }
    else if c = ':' then { ia with out := ia.out ++ [c, ' '] }
    else if c = '}' || c = ']' then
      if ia.needIndent then { ia with needIndent := false, out := ia.out ++ [c] }
      else { ia with depth := ia.depth - 1,
                     out := appendNewline ia.out (ia.depth - 1) ++ [c] }
    else { ia with out := ia.out ++ [c] }

/-- One `appendIndent` loop iteration.  Go breaks out of the loop on
`scanError`; since `stateError` is absorbing and every later byte then
yields `scanError` (ignored by `indentOut`), folding to the end is
equivalent. -/
def indentStep (acc : Scanner × IndentAcc) (c : Char) : Scanner × IndentAcc :=
  ((scanStep acc.1 c).1, indentOut acc.2 c (scanStep acc.1 c).2)

/-- Go `json.Indent(&buf, src, "", "  ")`: `none` when the scan fails (Go then
truncates the buffer back to its original length), otherwise the indented
bytes. -/
def jsonIndent (cs : List Char) : Option (List Char) :=
  if eofCode (cs.foldl indentStep (initScanner, ⟨[], false, 0⟩)).1 = .scanErr then none
  else some (cs.foldl indentStep (initScanner, ⟨[], false, 0⟩)).2.out

/-- The scanner threaded through `appendIndent` is the same scanner
`checkValid` runs. -/
theorem foldl_indentStep_fst (cs : List Char) : ∀ (s : Scanner) (ia : IndentAcc),
    (cs.foldl indentStep (s, ia)).1 = scanChars s cs := by
  induction cs with
  | nil => intro s ia; rfl
  | cons c rest ih => intro s ia; exact ih (scanStep s c).1 (indentOut ia c (scanStep s c).2)

/-- Go `eof` returns either `scanEnd` or `scanError`. -/
theorem eofCode_cases (s : Scanner) : eofCode s = .scanEnd ∨ eofCode s = .scanErr := by
  unfold eofCode
  split
  · exact Or.inr rfl
  · split
    · exact Or.inl rfl
    · split
      · exact Or.inl rfl
      · exact Or.inr rfl

/-- Go `json.Indent` succeeds exactly on the inputs `json.Valid` accepts. -/
theorem jsonIndent_isSome (cs : List Char) : (jsonIndent cs).isSome = jsonValid cs := by
  unfold jsonIndent jsonValid
  rw [show (cs.foldl indentStep (initScanner, ⟨[], false, 0⟩)).1 = scanChars initScanner cs
        from foldl_indentStep_fst cs initScanner ⟨[], false, 0⟩]
  rcases eofCode_cases (scanChars initScanner cs) with h | h <;> simp [h]

example : jsonIndent ("\x7b\"a\":[1,2]\x7d".toList)
    = some ("\x7b\n  \"a\": [\n    1,\n    2\n  ]\n\x7d".toList) := by decide
example : jsonIndent ("\x7b\x7d".toList) = some ("\x7b\x7d".toList) := by decide
example : jsonIndent ("\x7b\"a\":1,\x7d".toList) = none := by decide

/-! ### `saveResponse` (poster.go lines 176–185) and the file system -/

/-- The bytes `saveResponse` writes: the re-indented body when `json.Indent`
succeeds, the raw body otherwise (`formattedJSON.Write(response)` after the
failed `Indent` left the buffer empty). -/
def saveResponseBytes (response : List Char) : List Char :=
  match jsonIndent response with
  | some formatted => formatted
  | none => response

/-- A file system: path to contents (`none` = absent). -/
abbrev FileSys := String → Option (List Char)

/-- Go `os.WriteFile`: create or truncate, then write. -/
def writeFile (fs : FileSys) (path : String) (content : List Char) : FileSys :=
  fun p => if p = path then some content else fs p

/-- Go `saveResponse(fileName, response, path)` acting on a file system. -/
def saveResponse (fileName : String) (response : List Char) (path : String)
    (fs : FileSys) : FileSys :=
  writeFile fs (path ++ "/" ++ fileName) (saveResponseBytes response)

/-! ### Worker loop of poster.go (`work`, lines 107–142) -/

/-- The error kinds a `Result.Err` can carry, tagged as in `work`'s
`fmt.Errorf` wrappers. -/
inductive TaskFailure where
  | readFail (msg : String)
  | invalidJson
  | sendFail (msg : String)
  | saveFail (msg : String)
deriving DecidableEq, Repr

/-- Go `Result` of poster.go: file name and optional error. -/
structure Result where
  fileName : String
  err : Option TaskFailure
deriving DecidableEq, Repr

/-- One task together with the outcomes of its effectful stages, supplied as
oracles: the `os.ReadFile` outcome, the `sendRequest` outcome and the
`saveResponse` outcome. -/
structure GoTask where
  fileName : String
  readResult : Except String (List Char)
  sendResult : Except String (List Char)
  saveResult : Option String
deriving Repr

/-- One iteration of `work`'s loop body.  The second component records
whether the Transport Client (`sendRequest`) was invoked for this task. -/
def workStep (t : GoTask) : Result × Bool :=
  match t.readResult with
  | .error e => ({ fileName := t.fileName, err := some (.readFail e) }, false)
  | .ok jsonData =>
    if !(jsonValid jsonData) then
      ({ fileName := t.fileName, err := some .invalidJson }, false)
    else
      match t.sendResult with
      | .error e => ({ fileName := t.fileName, err := some (.sendFail e) }, true)
      | .ok _response =>
        match t.saveResult with
        | some e => ({ fileName := t.fileName, err := some (.saveFail e) }, true)
        | none => ({ fileName := t.fileName, err := none }, true)

/-- Go `work`: drain the files channel (modelled as the list of tasks this
worker dequeues; the empty list is the closed-and-empty channel).  Every
branch of the loop body, failing or not, emits exactly one `Result` and
continues with the rest of the queue. -/
def work : List GoTask → List Result
  | [] => []
  | t :: rest => (workStep t).1 :: work rest

/-- One iteration of `main`'s result-collection loop, acting on the pair
`(successCount, errorCount)`. -/
def collectStep (acc : Nat × Nat) (r : Result) : Nat × Nat :=
  match r.err with
  | some _ => (acc.1, acc.2 + 1)
  | none => (acc.1 + 1, acc.2)

/-- Go `main`'s result-collection loop: count failures and successes over the
drained results channel. -/
def collectResults (results : List Result) : Nat × Nat :=
  results.foldl collectStep (0, 0)

/-! ### Transport and worker of the extended variant (src/unnamed/part_006) -/

/-- Error kinds `sendRequest` can produce: `client.Do` failure,
`io.ReadAll` failure, or a non-2xx status (`"сервер вернул статус: %d"`). -/
inductive SendFailure where
  | transport (msg : String)
  | readBody (msg : String)
  | status (code : Nat)
deriving DecidableEq, Repr

/-- What the network did for one request: no reply at all, a reply whose
body could not be read, or a reply with a status code and body. -/
inductive TransportOutcome where
  | noReply (msg : String)
  | bodyReadFail (statusCode : Nat) (msg : String)
  | reply (statusCode : Nat) (body : List Char)
deriving DecidableEq, Repr

/-- Go `sendRequest` of part_006 (and, dropping the status component, of
poster.go lines 145–174): returns `(body, statusCode, error)`.  A nil Go
byte slice is modelled as `[]`.  The body of a received reply is returned
in every case; a status outside 200–299 additionally yields an error. -/
def sendRequest : TransportOutcome → List Char × Nat × Option SendFailure
  | .noReply m => ([], 0, some (.transport m))
  | .bodyReadFail st m => ([], st, some (.readBody m))
  | .reply st body =>
    if st < 200 ∨ 300 ≤ st then (body, st, some (.status st))
    else (body, st, none)

/-- Error kinds carried by the extended `Result.Err`. -/
inductive TaskFailure6 where
  | readFail (msg : String)
  | invalidJson
  | sendFail (e : SendFailure)
  | saveFail (msg : String)
deriving DecidableEq, Repr

/-- Go `Result` of part_006: durations are `time.Duration` nanoseconds,
modelled as `Nat`. -/
structure Result6 where
  fileName : String
  fileSize : Nat
  requestSize : Nat
  responseSize : Nat
  duration : Nat
  statusCode : Nat
  err : Option TaskFailure6
deriving DecidableEq, Repr

/-- A task for the extended worker, with oracle outcomes for its effectful
stages and for the three `time.Since(startTime)` clock reads. -/
structure Task6 where
  fileName : String
  readResult : Except String (List Char)
  statSize : Nat
  sendOutcome : TransportOutcome
  saveFailMsg : Option String
  durEarly : Nat
  durRequest : Nat
  durTotal : Nat
deriving Repr

/-- One iteration of the extended `work` loop body (part_006 lines
169–318). -/
def work6Step (t : Task6) : Result6 :=
  match t.readResult with
  | .error e =>
    { fileName := t.fileName, fileSize := 0, requestSize := 0, responseSize := 0,
      duration := t.durEarly, statusCode := 0, err := some (.readFail e) }
  | .ok jsonData =>
    if !(jsonValid jsonData) then
      { fileName := t.fileName, fileSize := t.statSize, requestSize := jsonData.length,
        responseSize := 0, duration := t.durEarly, statusCode := 0,
        err := some .invalidJson }
    else
      match sendRequest t.sendOutcome with
      | (_, statusCode, some e) =>
        { fileName := t.fileName, fileSize := t.statSize, requestSize := jsonData.length,
          responseSize := 0, duration := t.durRequest, statusCode := statusCode,
          err := some (.sendFail e) }
      | (response, statusCode, none) =>
        match t.saveFailMsg with
        | some e =>
          { fileName := t.fileName, fileSize := t.statSize,
            requestSize := jsonData.length, responseSize := response.length,
            duration := t.durTotal, statusCode := statusCode,
            err := some (.saveFail e) }
        | none =>
          { fileName := t.fileName, fileSize := t.statSize,
            requestSize := jsonData.length, responseSize := response.length,
            duration := t.durTotal, statusCode := statusCode, err := none }

/-! ### The aggregator `statistic` (part_006 lines 442–532) -/

/-- Go `time.Hour` in nanoseconds, the sentinel `durationStats.min` starts
from. -/
def timeHour : Nat := 3600000000000

/-- The aggregation state accumulated by `statistic`'s loop. -/
structure Stats where
  successCount : Nat
  errorCount : Nat
  totalDuration : Nat
  totalFileSize : Nat
  totalRequestSize : Nat
  totalResponseSize : Nat
  statusCodeStats : Nat → Nat
  durMin : Nat
  durMax : Nat
  durSum : Nat

def initStats : Stats :=
  { successCount := 0, errorCount := 0, totalDuration := 0, totalFileSize := 0,
    totalRequestSize := 0, totalResponseSize := 0, statusCodeStats := fun _ => 0,
    durMin := timeHour, durMax := 0, durSum := 0 }

/-- One iteration of `statistic`'s collection loop. -/
def statStep (st : Stats) (r : Result6) : Stats :=
  match r.err with
  | some _ => { st with errorCount := st.errorCount + 1 }
  | none =>
    let st :=
      { st with successCount := st.successCount + 1,
                totalDuration := st.totalDuration + r.duration,
                totalFileSize := st.totalFileSize + r.fileSize,
                totalRequestSize := st.totalRequestSize + r.requestSize,
                totalResponseSize := st.totalResponseSize + r.responseSize }
    let st :=
      if 0 < r.statusCode then
        { st with statusCodeStats :=
            fun c => if c = r.statusCode then st.statusCodeStats c + 1
                     else st.statusCodeStats c }
      else st
    let st := if r.duration < st.durMin then { st with durMin := r.duration } else st
    let st := if st.durMax < r.duration then { st with durMax := r.duration } else st
    { st with durSum := st.durSum + r.duration }

/-- Go `statistic` run over a drained result sequence. -/
def statistic (rs : List Result6) : Stats :=
  rs.foldl statStep initStats

/-- The successful results of a drained sequence. -/
def successes (rs : List Result6) : List Result6 :=
  rs.filter (fun r => r.err.isNone)

/-- The durations of the successful results. -/
def successDurations (rs : List Result6) : List Nat :=
  (successes rs).map (fun r => r.duration)

/-! ### Config (internal/config) and the dispatch-time worker clamp
(poster.go lines 54–57, 74–79) -/

/-- Go `Config` of internal/config/config.go. -/
structure Config where
  url : String
  requestsDir : String
  responsesDir : String
  timeout : Nat
  workers : Nat
  log : String
deriving DecidableEq, Repr

/-- The clamp `main` applies before starting the pool:
`if len(filePaths) < cfg.Workers { cfg.Workers = len(filePaths) }`.
It mutates the `Config` record itself; the returned record is `cfg` after
that statement. -/
def dispatchClamp (cfg : Config) (taskCount : Nat) : Config :=
  if taskCount < cfg.workers then { cfg with workers := taskCount } else cfg

/-- The number of `work` goroutines `main` launches:
`for i := 0; i < cfg.Workers; i++` after the clamp. -/
def startedWorkers (cfg : Config) (taskCount : Nat) : Nat :=
  (dispatchClamp cfg taskCount).workers

/-! ### Logger (internal/logger/logger.go)

Field values (`interface{}`) are a type parameter `V`; a Go map is modelled
extensionally as `String → Option V` (a nil map reads as the empty map).
JSON serialization of the record and the caller-location capture
(`runtime.Caller`) are outside the shallow embedding; an emission is
modelled by the `(writer, record)` pair it writes, `none` when nothing is
written.  `time.Now` is an explicit `now` argument. -/

/-- Go `Level`, declared `iota - 1`: NOLOG=-1 … FATAL=5. -/
abbrev Level := Int

def NOLOG : Level := -1
def STDOUT : Level := 0
def DEBUG : Level := 1
def INFO : Level := 2
def WARN : Level := 3
def ERROR : Level := 4
def FATAL : Level := 5

/-- Go `levelNames` map; a missing key reads as the zero string. -/
def levelName (l : Level) : String :=
  if l = NOLOG then ("NOLOG")
  else if l = STDOUT then ("STDOUT")
  else if l = DEBUG then ("DEBUG")
  else if l = INFO then ("INFO")
  else if l = WARN then ("WARN")
  else if l = ERROR then ("ERROR")
  else if l = FATAL then ("FATAL")
  else ("")

/-- An `io.Writer` value: the identity of the sink a logger writes to. -/
inductive Sink where
  | stdout
  | stderr
  | discard
  | file (name : String)
  | buffer (id : Nat)
deriving DecidableEq, Repr

/-- A `map[string]interface{}` of log fields. -/
abbrev Fields (V : Type) := String → Option V

def emptyFields {V : Type} : Fields V := fun _ => none

/-- Copy `base` and overlay `extra` (`extra` wins on key collision), the
map-merge pattern used by both `WithFields` and `log`. -/
def overrideFields {V : Type} (base extra : Fields V) : Fields V :=
  fun k =>
    match extra k with
    | some v => some v
    | none => base k

/-- The `Logger` struct: level threshold, output sink and base fields.
The `sync.Mutex` field guards concurrent writes and has no pure content;
identity of handles (each Go `&Logger{...}` allocation owns its own mutex)
is modelled by the heap below. -/
structure Logger (V : Type) where
  level : Level
  output : Option Sink
  fields : Fields V

/-- One structured record as `log` assembles it (entry.Fields is the merged
map; Go omits it from the JSON when empty, which is invisible
extensionally). -/
structure LogRecord (V : Type) where
  timestamp : Nat
  level : String
  message : String
  fields : Fields V

/-- Go `mergeFields`: merge the variadic field maps left to right, later maps
overwriting earlier ones.  (Go returns nil for zero maps and the map itself
for one; both coincide extensionally with the fold.) -/
def mergeFields {V : Type} (fs : List (Fields V)) : Fields V :=
  fs.foldl overrideFields emptyFields

/-- Go `(*Logger).log`: suppress when the event level is strictly below the
threshold or the output is nil; otherwise write exactly one record carrying
the timestamp, level name, message, and base fields overlaid with the
call-supplied fields. -/
def Logger.log {V : Type} (l : Logger V) (level : Level) (msg : String)
    (fields : Fields V) (now : Nat) : Option (Sink × LogRecord V) :=
  if level < l.level then none
  else
    match l.output with
    | none => none
    | some w =>
      some (w, { timestamp := now, level := levelName level, message := msg,
                 fields := overrideFields l.fields fields })

/-- A public emission (`Debug`/`Info`/`Warn`/`Error`/`Fatal` all do
`l.log(LEVEL, msg, mergeFields(fields))`). -/
def Logger.emit {V : Type} (l : Logger V) (level : Level) (msg : String)
    (fieldMaps : List (Fields V)) (now : Nat) : Option (Sink × LogRecord V) :=
  l.log level msg (mergeFields fieldMaps) now

/-- Go `SetLevel` on the handle's own state. -/
def Logger.setLevel {V : Type} (l : Logger V) (lv : Level) : Logger V :=
  { l with level := lv }

/-- Go `SetOutput` on the handle's own state. -/
def Logger.setOutput {V : Type} (l : Logger V) (w : Sink) : Logger V :=
  { l with output := some w }

/-- Go `WithFields` builds the value of the freshly allocated `&Logger{...}`:
it copies the level and the output writer and merges the base fields with
the supplied ones. -/
def Logger.withFields {V : Type} (l : Logger V) (fs : Fields V) : Logger V :=
  { level := l.level, output := l.output, fields := overrideFields l.fields fs }

/-- Go `New`'s file-level branch tail: open the output file (outcome supplied
as `openResult`; `none` = `os.OpenFile` failed); on failure the logger
degrades to stderr and an error is returned alongside. -/
def fileLevelLogger (V : Type) (lv : Level) (openResult : Option Sink) :
    Logger V × Bool :=
  match openResult with
  | some w => ({ level := lv, output := some w, fields := emptyFields }, false)
  | none => ({ level := lv, output := some .stderr, fields := emptyFields }, true)

/-- The level names `New` recognizes. -/
def recognizedLevelNames : List String :=
  ["fatal", "error", "warn", "warning", "info", "debug", "stdout"]

/-- Go `strings.ToLower` (its effect on the level-name alphabet: per-character
ASCII lowercasing). -/
def goToLower (s : String) : String :=
  ⟨s.data.map Char.toLower⟩

/-- Go `New(level, outputFile)`: the switch over `strings.ToLower(level)`.  The
second component records whether a non-nil error was returned. -/
def NewLogger (V : Type) (level : String) (openResult : Option Sink) :
    Logger V × Bool :=
  if goToLower level = "fatal" then fileLevelLogger V FATAL openResult
  else if goToLower level = "error" then fileLevelLogger V ERROR openResult
  else if goToLower level = "warn" ∨ goToLower level = "warning" then
    fileLevelLogger V WARN openResult
  else if goToLower level = "info" then fileLevelLogger V INFO openResult
  else if goToLower level = "debug" then fileLevelLogger V DEBUG openResult
  else if goToLower level = "stdout" then
    ({ level := STDOUT, output := some .stdout, fields := emptyFields }, false)
  else ({ level := NOLOG, output := some .discard, fields := emptyFields }, false)

/-! #### Handle identity: a heap of `Logger` allocations

Go handles are `*Logger` pointers; `WithFields` allocates a new struct
(with its own zero-value mutex) while `SetLevel`/`SetOutput` mutate the
pointed-to struct in place.  References are indices into a list of
allocations. -/

abbrev LoggerHeap (V : Type) := List (Logger V)

def nilLogger (V : Type) : Logger V :=
  { level := 0, output := none, fields := emptyFields }

def heapGet {V : Type} (h : LoggerHeap V) (r : Nat) : Logger V :=
  h.getD r (nilLogger V)

def heapSet {V : Type} (h : LoggerHeap V) (r : Nat) (l : Logger V) : LoggerHeap V :=
  h.set r l

/-- Go `l.WithFields(fs)`: allocate a fresh `Logger` and return its
reference. -/
def heapWithFields {V : Type} (h : LoggerHeap V) (r : Nat) (fs : Fields V) :
    LoggerHeap V × Nat :=
  (h ++ [(heapGet h r).withFields fs], h.length)

/-- Go `l.SetLevel(lv)`: in-place mutation of the referenced allocation. -/
def heapSetLevel {V : Type} (h : LoggerHeap V) (r : Nat) (lv : Level) : LoggerHeap V :=
  heapSet h r ((heapGet h r).setLevel lv)

/-- Go `l.SetOutput(w)`: in-place mutation of the referenced allocation. -/
def heapSetOutput {V : Type} (h : LoggerHeap V) (r : Nat) (w : Sink) : LoggerHeap V :=
  heapSet h r ((heapGet h r).setOutput w)

/-! ## Claim theorems -/

/-! ### C1 -/

/-- Each worker emits one `Result` per dequeued task and never stops early:
`work` maps the whole queue. -/
theorem work_length (ts : List GoTask) : (work ts).length = ts.length := by
  induction ts with
  | nil => rfl
  | cons t rest ih => simp [work, ih]

/-- The aggregator's two counters always sum to the number of drained
results. -/
theorem collectResults_sum (rs : List Result) :
    (collectResults rs).1 + (collectResults rs).2 = rs.length := by
  suffices h : ∀ (rs : List Result) (a b : Nat),
      (rs.foldl collectStep (a, b)).1 + (rs.foldl collectStep (a, b)).2
        = a + b + rs.length by
    simpa [collectResults] using h rs 0 0
  intro rs
  induction rs with
  | nil => intro a b; simp
  | cons r rest ih =>
    intro a b
    rw [List.foldl_cons]
    cases hr : r.err with
    | none =>
      have hc : collectStep (a, b) r = (a + 1, b) := by simp [collectStep, hr]
      rw [hc, ih]
      simp only [List.length_cons]
      omega
    | some e =>
      have hc : collectStep (a, b) r = (a, b + 1) := by simp [collectStep, hr]
      rw [hc, ih]
      simp only [List.length_cons]
      omega

/-- C1: over any split of the N discovered tasks among the workers, the pool
emits exactly one `Result` per task — each worker drains its whole share of
the queue, a failing task never ending its loop — and the aggregator's
success and failure counts sum to N. -/
theorem work_pool_one_result_per_task (parts : List (List GoTask)) :
    (∀ ts : List GoTask, (work ts).length = ts.length) ∧
    (collectResults ((parts.map work).flatten)).1 +
      (collectResults ((parts.map work).flatten)).2 = parts.flatten.length := by
  refine ⟨work_length, ?_⟩
  rw [collectResults_sum]
  induction parts with
  | nil => rfl
  | cons p rest ih => simp [work_length, ih]

/-! ### C2 -/

/-- C2: a task whose payload fails `json.Valid` never reaches the Transport
Client and yields a validation-error `Result`; in particular the payload
`{"a":1,}` (trailing comma) is invalid. -/
theorem invalid_payload_never_sent (t : GoTask) (payload : List Char)
    (hread : t.readResult = .ok payload) (hvalid : jsonValid payload = false) :
    (workStep t).2 = false ∧
    (workStep t).1.err = some .invalidJson ∧
    jsonValid ("\x7b\"a\":1,\x7d".toList) = false := by
  refine ⟨?_, ?_, by decide⟩ <;> simp [workStep, hread, hvalid]

def c2Task : GoTask :=
  { fileName := "bad.json", readResult := .ok ("\x7b\"a\":1,\x7d".toList),
    sendResult := .ok [], saveResult := none }

theorem invalid_payload_never_sent_witness :
    (workStep c2Task).2 = false ∧
    (workStep c2Task).1.err = some .invalidJson ∧
    jsonValid ("\x7b\"a\":1,\x7d".toList) = false :=
  invalid_payload_never_sent c2Task ("\x7b\"a\":1,\x7d".toList) rfl (by decide)

/-! ### C3 -/

/-- C3: a received reply's body is returned by `sendRequest` whatever the
status; a status outside 200–299 additionally yields a status-tagged error;
and the worker's `Result` for such a reply carries that status code and a
non-success-status error. -/
theorem sendRequest_reply_behaviour (st : Nat) (body : List Char) :
    (sendRequest (.reply st body)).1 = body ∧
    (sendRequest (.reply st body)).2.1 = st ∧
    ((sendRequest (.reply st body)).2.2 =
      if st < 200 ∨ 300 ≤ st then some (.status st) else none) ∧
    (∀ (t : Task6) (payload : List Char),
      t.readResult = .ok payload → jsonValid payload = true →
      t.sendOutcome = .reply st body → (st < 200 ∨ 300 ≤ st) →
        (work6Step t).statusCode = st ∧
        (work6Step t).err = some (.sendFail (.status st))) := by
  refine ⟨?_, ?_, ?_, ?_⟩
  · simp only [sendRequest]
    split <;> rfl
  · simp only [sendRequest]
    split <;> rfl
  · simp only [sendRequest]
    by_cases hc : st < 200 ∨ 300 ≤ st
    · rw [if_pos hc, if_pos hc]
    · rw [if_neg hc, if_neg hc]
  · intro t payload hread hvalid hout hst
    have hsend : sendRequest t.sendOutcome = (body, st, some (.status st)) := by
      rw [hout]
      simp only [sendRequest]
      rw [if_pos hst]
    constructor <;> simp [work6Step, hread, hvalid, hsend]

def c3Task : Task6 :=
  { fileName := "r.json", readResult := .ok ("\x7b\"a\":1\x7d".toList), statSize := 9,
    sendOutcome := .reply 500 ("\x7b\"err\":\"boom\"\x7d".toList), saveFailMsg := none,
    durEarly := 1, durRequest := 2, durTotal := 3 }

theorem sendRequest_reply_behaviour_witness :
    (sendRequest (.reply 500 ("\x7b\"err\":\"boom\"\x7d".toList))).1
      = "\x7b\"err\":\"boom\"\x7d".toList ∧
    (work6Step c3Task).statusCode = 500 ∧
    (work6Step c3Task).err = some (.sendFail (.status 500)) := by
  have h := sendRequest_reply_behaviour 500 ("\x7b\"err\":\"boom\"\x7d".toList)
  have hw := h.2.2.2 c3Task ("\x7b\"a\":1\x7d".toList) rfl (by decide) rfl (by decide)
  exact ⟨h.1, hw.1, hw.2⟩

/-! ### C7 -/

/-- C7: the number of `work` goroutines launched equals
`min(configured workers, task count)`; when fewer tasks than workers were
discovered, at most that many workers are started. -/
theorem started_workers_eq_min (cfg : Config) (n : Nat)
    (_hw : 1 ≤ cfg.workers) (_hn : 1 ≤ n) :
    startedWorkers cfg n = min cfg.workers n ∧
    (n < cfg.workers → startedWorkers cfg n ≤ n) := by
  have h : startedWorkers cfg n = min cfg.workers n := by
    unfold startedWorkers dispatchClamp
    split
    · show n = min cfg.workers n
      omega
    · show cfg.workers = min cfg.workers n
      rename_i hge
      omega
  exact ⟨h, fun _ => by rw [h]; omega⟩

def c7cfg : Config :=
  { url := "http://localhost:8080/execute", requestsDir := "requests",
    responsesDir := "responses", timeout := 30, workers := 8, log := "" }

theorem started_workers_eq_min_witness :
    startedWorkers c7cfg 5 = min c7cfg.workers 5 ∧ startedWorkers c7cfg 5 ≤ 5 := by
  have h := started_workers_eq_min c7cfg 5 (by decide) (by decide)
  exact ⟨h.1, h.2 (by decide)⟩

/-! ### C8 -/

def c8cfg : Config :=
  { url := "http://localhost:8080/execute", requestsDir := "requests",
    responsesDir := "responses", timeout := 30, workers := 8, log := "" }

/-- C8 counterexample: the clamp `cfg.Workers = len(filePaths)` does store
the clamped value back into the `Config` record — for 8 configured workers
and 5 discovered tasks, `cfg.workers` afterwards holds 5, not the original
8. -/
theorem clamp_stored_back_counterexample :
    (dispatchClamp c8cfg 5).workers = 5 ∧ c8cfg.workers = 8 ∧
    ¬ (dispatchClamp c8cfg 5).workers = c8cfg.workers := by
  refine ⟨rfl, rfl, by decide⟩

/-- C8 amended: at dispatch time the worker count is clamped to the task
count and the clamped value IS stored back into the `Config`'s workers
field (the other fields are untouched); the record is left unchanged only
when the configured count already fits. -/
theorem clamp_stored_back_amended (cfg : Config) (n : Nat) :
    (dispatchClamp cfg n).workers = min cfg.workers n ∧
    (dispatchClamp cfg n).url = cfg.url ∧
    (dispatchClamp cfg n).requestsDir = cfg.requestsDir ∧
    (dispatchClamp cfg n).responsesDir = cfg.responsesDir ∧
    (dispatchClamp cfg n).timeout = cfg.timeout ∧
    (dispatchClamp cfg n).log = cfg.log ∧
    (cfg.workers ≤ n → dispatchClamp cfg n = cfg) := by
  unfold dispatchClamp
  split
  · rename_i hlt
    refine ⟨?_, rfl, rfl, rfl, rfl, rfl, fun hle => absurd hle (by omega)⟩
    show n = min cfg.workers n
    omega
  · rename_i hge
    refine ⟨?_, rfl, rfl, rfl, rfl, rfl, fun _ => rfl⟩
    show cfg.workers = min cfg.workers n
    omega

theorem clamp_stored_back_amended_witness :
    (dispatchClamp c8cfg 5).workers = min c8cfg.workers 5 ∧
    dispatchClamp c8cfg 10 = c8cfg := by
  exact ⟨(clamp_stored_back_amended c8cfg 5).1,
         (clamp_stored_back_amended c8cfg 10).2.2.2.2.2.2 (by decide)⟩

/-! ### C4 -/

theorem saveResponseBytes_of_some {r f : List Char} (h : jsonIndent r = some f) :
    saveResponseBytes r = f := by
  unfold saveResponseBytes
  rw [h]

theorem saveResponseBytes_of_none {r : List Char} (h : jsonIndent r = none) :
    saveResponseBytes r = r := by
  unfold saveResponseBytes
  rw [h]

/-- C4: `saveResponse` persists a valid-JSON body as its two-space
re-indentation (`jsonIndent`), persists a body `json.Indent` rejects
byte-identical, and writing to an existing path replaces the previous
contents entirely. -/
theorem saveResponse_indent_or_raw (fileName dir : String) (response : List Char)
    (fs : FileSys) :
    (jsonValid response = true →
      ∃ formatted, jsonIndent response = some formatted ∧
        saveResponse fileName response dir fs (dir ++ "/" ++ fileName)
          = some formatted) ∧
    (jsonValid response = false →
      saveResponse fileName response dir fs (dir ++ "/" ++ fileName)
        = some response) ∧
    (∀ old, fs (dir ++ "/" ++ fileName) = some old →
      saveResponse fileName response dir fs (dir ++ "/" ++ fileName)
        = some (saveResponseBytes response)) := by
  have hw : saveResponse fileName response dir fs (dir ++ "/" ++ fileName)
      = some (saveResponseBytes response) := by
    unfold saveResponse writeFile
    simp
  refine ⟨?_, ?_, fun old _ => hw⟩
  · intro hv
    have hs : (jsonIndent response).isSome = true := by rw [jsonIndent_isSome, hv]
    obtain ⟨formatted, hf⟩ := Option.isSome_iff_exists.mp hs
    exact ⟨formatted, hf, by rw [hw, saveResponseBytes_of_some hf]⟩
  · intro hv
    have hs : ¬ (jsonIndent response).isSome = true := by rw [jsonIndent_isSome, hv]; simp
    have hn : jsonIndent response = none := Option.not_isSome_iff_eq_none.mp hs
    rw [hw, saveResponseBytes_of_none hn]

theorem saveResponse_indent_or_raw_witness :
    (∃ formatted,
      jsonIndent ("\x7b\"name\":\"test\",\"value\":42\x7d".toList) = some formatted ∧
      saveResponse ("valid.json") ("\x7b\"name\":\"test\",\"value\":42\x7d".toList)
        "responses" (fun _ => none) ("responses" ++ "/" ++ "valid.json")
        = some formatted) ∧
    saveResponse ("invalid.json") ("\x7b\"name\": \"test\", \"value\": 42,\x7d".toList)
      "responses" (fun _ => some ("old".toList)) ("responses" ++ "/" ++ "invalid.json")
      = some ("\x7b\"name\": \"test\", \"value\": 42,\x7d".toList) ∧
    saveResponse ("invalid.json") ("\x7b\"name\": \"test\", \"value\": 42,\x7d".toList)
      "responses" (fun _ => some ("old".toList)) ("responses" ++ "/" ++ "invalid.json")
      = some (saveResponseBytes ("\x7b\"name\": \"test\", \"value\": 42,\x7d".toList)) := by
  refine ⟨?_, ?_, ?_⟩
  · exact (saveResponse_indent_or_raw ("valid.json") ("responses")
      ("\x7b\"name\":\"test\",\"value\":42\x7d".toList) (fun _ => none)).1 (by decide)
  · exact (saveResponse_indent_or_raw ("invalid.json") ("responses")
      ("\x7b\"name\": \"test\", \"value\": 42,\x7d".toList)
      (fun _ => some ("old".toList))).2.1 (by decide)
  · exact (saveResponse_indent_or_raw ("invalid.json") ("responses")
      ("\x7b\"name\": \"test\", \"value\": 42,\x7d".toList)
      (fun _ => some ("old".toList))).2.2 ("old".toList) rfl

/-! ### C5 -/

/-- Last-supplied-wins lookup across a list of field maps: the value of the
latest map defining `k`, if any. -/
def lastWins {V : Type} (fs : List (Fields V)) (k : String) : Option V :=
  match fs with
  | [] => none
  | f :: rest =>
    match lastWins rest k with
    | some v => some v
    | none => f k

/-- The first option if present, the second otherwise. -/
def fallbackTo {V : Type} (o b : Option V) : Option V :=
  match o with
  | some v => some v
  | none => b

theorem overrideFields_eq_fallbackTo {V : Type} (base extra : Fields V) (k : String) :
    overrideFields base extra k = fallbackTo (extra k) (base k) := by
  unfold overrideFields fallbackTo
  cases extra k <;> rfl

/-- Folding `overrideFields` left to right realizes last-supplied-wins
lookup over any base map. -/
theorem foldl_overrideFields {V : Type} (fs : List (Fields V)) :
    ∀ (base : Fields V) (k : String),
      fs.foldl overrideFields base k = fallbackTo (lastWins fs k) (base k) := by
  induction fs with
  | nil => intro base k; rfl
  | cons f rest ih =>
    intro base k
    rw [List.foldl_cons, ih, overrideFields_eq_fallbackTo]
    cases h : lastWins rest k with
    | some v => simp [lastWins, h, fallbackTo]
    | none => simp [lastWins, h, fallbackTo]

/-- C5: an emission strictly below the handle's threshold produces nothing;
otherwise exactly one record is produced, carrying the timestamp, the level
name, the message, and the merged fields — later-supplied maps win over
earlier ones and all call-supplied keys win over the handle's base
fields. -/
theorem logger_level_filter_and_merge {V : Type} (l : Logger V) (w : Sink)
    (lvl : Level) (msg : String) (fieldMaps : List (Fields V)) (now : Nat) :
    (lvl < l.level → l.emit lvl msg fieldMaps now = none) ∧
    (l.output = some w → l.level ≤ lvl →
      ∃ rec, l.emit lvl msg fieldMaps now = some (w, rec) ∧
        rec.timestamp = now ∧ rec.level = levelName lvl ∧ rec.message = msg ∧
        ∀ k, rec.fields k = fallbackTo (lastWins fieldMaps k) (l.fields k)) := by
  constructor
  · intro hlt
    unfold Logger.emit Logger.log
    rw [if_pos hlt]
  · intro hout hle
    refine ⟨{ timestamp := now, level := levelName lvl, message := msg,
              fields := overrideFields l.fields (mergeFields fieldMaps) }, ?_, rfl, rfl, rfl, ?_⟩
    · unfold Logger.emit Logger.log
      rw [if_neg (not_lt.mpr hle), hout]
    · intro k
      show overrideFields l.fields (mergeFields fieldMaps) k = _
      rw [overrideFields_eq_fallbackTo]
      unfold mergeFields
      rw [foldl_overrideFields]
      cases h : lastWins fieldMaps k with
      | some v => rfl
      | none => rfl

def c5base : Logger Nat :=
  { level := INFO, output := some (.buffer 0),
    fields := fun k => if k = "service" then some 1 else none }

def c5map1 : Fields Nat :=
  fun k => if k = "service" then some 2 else if k = "step" then some 1 else none

def c5map2 : Fields Nat := fun k => if k = "step" then some 9 else none

theorem logger_level_filter_and_merge_witness :
    c5base.emit DEBUG ("dbg") [] 7 = none ∧
    (∃ rec, c5base.emit INFO ("go") [c5map1, c5map2] 7 = some (.buffer 0, rec) ∧
      rec.timestamp = 7 ∧ rec.level = levelName INFO ∧ rec.message = "go" ∧
      ∀ k, rec.fields k = fallbackTo (lastWins [c5map1, c5map2] k) (c5base.fields k)) := by
  constructor
  · exact (logger_level_filter_and_merge c5base (.buffer 0) DEBUG ("dbg") [] 7).1
      (by decide)
  · exact (logger_level_filter_and_merge c5base (.buffer 0) INFO ("go")
      [c5map1, c5map2] 7).2 rfl (by decide)

/-! ### C10 -/

/-- C10: for an unrecognized (or empty) level name `New` yields a handle at
level `NOLOG` writing to the discard sink; `NOLOG` is the least of the level
constants, so no emission level is ever filtered out on such a handle; and
after `SetOutput(w)` every emission at any level `≥ NOLOG` is written to
`w`. -/
theorem nolog_handle_not_suppressed (s : String) (o : Option Sink)
    (hs : goToLower s ∉ recognizedLevelNames) (w : Sink) (lvl : Level)
    (hlvl : NOLOG ≤ lvl) (msg : String) (fieldMaps : List (Fields Nat)) (now : Nat) :
    (NewLogger Nat s o).1.level = NOLOG ∧
    (NewLogger Nat s o).1.output = some .discard ∧
    ¬ lvl < (NewLogger Nat s o).1.level ∧
    (NOLOG ≤ STDOUT ∧ NOLOG ≤ DEBUG ∧ NOLOG ≤ INFO ∧ NOLOG ≤ WARN ∧
      NOLOG ≤ ERROR ∧ NOLOG ≤ FATAL) ∧
    ∃ rec, ((NewLogger Nat s o).1.setOutput w).emit lvl msg fieldMaps now
      = some (w, rec) := by
  have hnew : NewLogger Nat s o
      = ({ level := NOLOG, output := some .discard, fields := emptyFields }, false) := by
    simp only [recognizedLevelNames, List.mem_cons, List.not_mem_nil, or_false,
      not_or] at hs
    obtain ⟨h1, h2, h3, h4, h5, h6, h7⟩ := hs
    unfold NewLogger
    rw [if_neg h1, if_neg h2, if_neg ?hwarn, if_neg h5, if_neg h6, if_neg h7]
    case hwarn => exact not_or.mpr ⟨h3, h4⟩
  rw [hnew]
  refine ⟨rfl, rfl, not_lt.mpr hlvl, by decide, ?_⟩
  refine ⟨{ timestamp := now, level := levelName lvl, message := msg,
            fields := overrideFields emptyFields (mergeFields fieldMaps) }, ?_⟩
  unfold Logger.setOutput Logger.emit Logger.log
  rw [if_neg (not_lt.mpr hlvl)]

theorem nolog_handle_not_suppressed_witness :
    (NewLogger Nat ("unknown") none).1.level = NOLOG ∧
    (NewLogger Nat ("unknown") none).1.output = some .discard ∧
    ∃ rec, ((NewLogger Nat ("unknown") none).1.setOutput (.buffer 3)).emit DEBUG
      ("msg") [] 11 = some (.buffer 3, rec) := by
  have h := nolog_handle_not_suppressed ("unknown") none (by decide) (.buffer 3)
    DEBUG (by decide) ("msg") [] 11
  exact ⟨h.1, h.2.1, h.2.2.2.2⟩

/-! ### C6 -/

theorem getD_append_self {α : Type} (d x : α) :
    ∀ (l : List α), (l ++ [x]).getD l.length d = x
  | [] => rfl
  | _ :: t => getD_append_self d x t

theorem getD_append_lt {α : Type} (d : α) :
    ∀ (l₁ l₂ : List α) (i : Nat), i < l₁.length →
      (l₁ ++ l₂).getD i d = l₁.getD i d
  | _ :: _, _, 0, _ => rfl
  | _ :: t, l₂, i + 1, h => getD_append_lt d t l₂ i (by simpa using h)
  | [], _, _, h => absurd h (by simp)

theorem getD_set_self {α : Type} (d v : α) :
    ∀ (l : List α) (i : Nat), i < l.length → (l.set i v).getD i d = v
  | _ :: _, 0, _ => rfl
  | _ :: t, i + 1, h => getD_set_self d v t i (by simpa using h)
  | [], _, h => absurd h (by simp)

theorem set_append_lt {α : Type} (v : α) :
    ∀ (l₁ l₂ : List α) (i : Nat), i < l₁.length →
      (l₁ ++ l₂).set i v = l₁.set i v ++ l₂
  | _ :: _, _, 0, _ => rfl
  | a :: t, l₂, i + 1, h =>
    congrArg (List.cons a) (set_append_lt v t l₂ i (by simpa using h))
  | [], _, _, h => absurd h (by simp)

def c6heap0 : LoggerHeap Nat :=
  [{ level := INFO, output := some (.file ("log.json")), fields := emptyFields }]

def c6heap1 : LoggerHeap Nat := (heapWithFields c6heap0 0 emptyFields).1

def c6child : Nat := (heapWithFields c6heap0 0 emptyFields).2

def c6heap2 : LoggerHeap Nat := heapSetLevel c6heap1 0 ERROR

/-- C6 counterexample: after deriving a handle with `WithFields` and then
calling `SetLevel(ERROR)` on the parent, the derived handle still filters at
its copied `INFO` level (its `Info` emission goes through while the
parent's is suppressed), and a `SetOutput` on the parent leaves the derived
handle pointing at the original writer — the mutation is not visible to the
derived handle, contrary to the claim. -/
theorem withFields_parent_mutation_counterexample :
    (heapGet c6heap2 c6child).level = INFO ∧
    (heapGet c6heap2 0).level = ERROR ∧
    ¬ (heapGet c6heap2 c6child).level = (heapGet c6heap2 0).level ∧
    ((heapGet c6heap2 c6child).emit INFO ("m") [] 0).isSome = true ∧
    (heapGet c6heap2 0).emit INFO ("m") [] 0 = none ∧
    (heapGet (heapSetOutput c6heap1 0 .stderr) c6child).output
      = some (.file ("log.json")) ∧
    (heapGet (heapSetOutput c6heap1 0 .stderr) 0).output = some .stderr := by
  exact ⟨rfl, rfl, by decide, rfl, rfl, rfl, rfl⟩

/-- C6 amended: `WithFields` copies the parent's level and output into a
freshly allocated handle (with its own zero-value mutex): the derived handle
initially references the same writer, but a subsequent `SetLevel` or
`SetOutput` on the parent changes only the parent — the derived handle keeps
the level and writer captured at derivation time. -/
theorem withFields_copies_state_amended {V : Type} (h : LoggerHeap V) (r : Nat)
    (fs : Fields V) (lv : Level) (w : Sink) (hr : r < h.length) :
    (heapGet (heapWithFields h r fs).1 (heapWithFields h r fs).2).level
      = (heapGet h r).level ∧
    (heapGet (heapWithFields h r fs).1 (heapWithFields h r fs).2).output
      = (heapGet h r).output ∧
    (heapGet (heapSetLevel (heapWithFields h r fs).1 r lv)
        (heapWithFields h r fs).2).level = (heapGet h r).level ∧
    (heapGet (heapSetLevel (heapWithFields h r fs).1 r lv) r).level = lv ∧
    (heapGet (heapSetOutput (heapWithFields h r fs).1 r w)
        (heapWithFields h r fs).2).output = (heapGet h r).output ∧
    (heapGet (heapSetOutput (heapWithFields h r fs).1 r w) r).output = some w := by
  have hchild : heapGet (heapWithFields h r fs).1 (heapWithFields h r fs).2
      = (heapGet h r).withFields fs := by
    show (h ++ [(heapGet h r).withFields fs]).getD h.length (nilLogger V)
      = (heapGet h r).withFields fs
    exact getD_append_self _ _ h
  have hparent1 : heapGet (heapWithFields h r fs).1 r = heapGet h r := by
    show (h ++ [(heapGet h r).withFields fs]).getD r (nilLogger V) = heapGet h r
    exact getD_append_lt _ h _ r hr
  have hsetlv : heapSetLevel (heapWithFields h r fs).1 r lv
      = h.set r ((heapGet h r).setLevel lv) ++ [(heapGet h r).withFields fs] := by
    show (h ++ [(heapGet h r).withFields fs]).set r
        ((heapGet (heapWithFields h r fs).1 r).setLevel lv) = _
    rw [hparent1]
    exact set_append_lt _ h _ r hr
  have hsetout : heapSetOutput (heapWithFields h r fs).1 r w
      = h.set r ((heapGet h r).setOutput w) ++ [(heapGet h r).withFields fs] := by
    show (h ++ [(heapGet h r).withFields fs]).set r
        ((heapGet (heapWithFields h r fs).1 r).setOutput w) = _
    rw [hparent1]
    exact set_append_lt _ h _ r hr
  have hlen : ∀ (u : Logger V), (h.set r u).length = h.length := by
    intro u
    exact List.length_set h r u
  refine ⟨by rw [hchild]; rfl, by rw [hchild]; rfl, ?_, ?_, ?_, ?_⟩
  · show ((heapSetLevel (heapWithFields h r fs).1 r lv).getD h.length
        (nilLogger V)).level = (heapGet h r).level
    rw [hsetlv]
    have := getD_append_self (nilLogger V) ((heapGet h r).withFields fs)
      (h.set r ((heapGet h r).setLevel lv))
    rw [hlen] at this
    rw [this]
    rfl
  · show ((heapSetLevel (heapWithFields h r fs).1 r lv).getD r (nilLogger V)).level
        = lv
    rw [hsetlv,
      getD_append_lt (nilLogger V) _ _ r (by rw [hlen]; exact hr),
      getD_set_self (nilLogger V) _ h r hr]
    rfl
  · show ((heapSetOutput (heapWithFields h r fs).1 r w).getD h.length
        (nilLogger V)).output = (heapGet h r).output
    rw [hsetout]
    have := getD_append_self (nilLogger V) ((heapGet h r).withFields fs)
      (h.set r ((heapGet h r).setOutput w))
    rw [hlen] at this
    rw [this]
    rfl
  · show ((heapSetOutput (heapWithFields h r fs).1 r w).getD r (nilLogger V)).output
        = some w
    rw [hsetout,
      getD_append_lt (nilLogger V) _ _ r (by rw [hlen]; exact hr),
      getD_set_self (nilLogger V) _ h r hr]
    rfl

theorem withFields_copies_state_witness :
    (heapGet (heapSetLevel (heapWithFields c6heap0 0 emptyFields).1 0 ERROR)
        (heapWithFields c6heap0 0 emptyFields).2).level
      = (heapGet c6heap0 0).level ∧
    (heapGet (heapSetLevel (heapWithFields c6heap0 0 emptyFields).1 0 ERROR) 0).level
      = ERROR ∧
    (heapGet (heapSetOutput (heapWithFields c6heap0 0 emptyFields).1 0 .stderr) 0).output
      = some .stderr := by
  have h := withFields_copies_state_amended c6heap0 0 emptyFields ERROR .stderr
    (by decide)
  exact ⟨h.2.2.1, h.2.2.2.1, h.2.2.2.2.2⟩

/-! ### C9 -/

/-- The fold the loop `if result.Duration < durationStats.min` computes. -/
def foldMinNat (a : Nat) (ds : List Nat) : Nat :=
  ds.foldl (fun m d => if d < m then d else m) a

/-- The fold the loop `if result.Duration > durationStats.max` computes. -/
def foldMaxNat (a : Nat) (ds : List Nat) : Nat :=
  ds.foldl (fun m d => if m < d then d else m) a

theorem foldMinNat_le (ds : List Nat) :
    ∀ a, foldMinNat a ds ≤ a ∧ ∀ d ∈ ds, foldMinNat a ds ≤ d := by
  induction ds with
  | nil =>
    intro a
    refine ⟨Nat.le_refl a, ?_⟩
    intro d hd
    simp at hd
  | cons d t ih =>
    intro a
    have hstep : foldMinNat a (d :: t) = foldMinNat (if d < a then d else a) t := rfl
    have h := ih (if d < a then d else a)
    constructor
    · calc foldMinNat a (d :: t) ≤ (if d < a then d else a) := by rw [hstep]; exact h.1
        _ ≤ a := by split <;> omega
    · intro x hx
      rcases List.mem_cons.mp hx with hx | hx
      · subst hx
        calc foldMinNat a (x :: t) ≤ (if x < a then x else a) := by rw [hstep]; exact h.1
          _ ≤ x := by split <;> omega
      · rw [hstep]
        exact h.2 x hx

theorem foldMinNat_mem (ds : List Nat) :
    ∀ a, foldMinNat a ds = a ∨ foldMinNat a ds ∈ ds := by
  induction ds with
  | nil => intro a; exact Or.inl rfl
  | cons d t ih =>
    intro a
    have hstep : foldMinNat a (d :: t) = foldMinNat (if d < a then d else a) t := rfl
    rcases ih (if d < a then d else a) with h | h
    · by_cases hda : d < a
      · right
        rw [hstep, h, if_pos hda]
        exact List.mem_cons_self d t
      · left
        rw [hstep, h, if_neg hda]
    · right
      rw [hstep]
      exact List.mem_cons_of_mem d h

theorem foldMaxNat_ge (ds : List Nat) :
    ∀ a, a ≤ foldMaxNat a ds ∧ ∀ d ∈ ds, d ≤ foldMaxNat a ds := by
  induction ds with
  | nil =>
    intro a
    refine ⟨Nat.le_refl a, ?_⟩
    intro d hd
    simp at hd
  | cons d t ih =>
    intro a
    have hstep : foldMaxNat a (d :: t) = foldMaxNat (if a < d then d else a) t := rfl
    have h := ih (if a < d then d else a)
    constructor
    · calc a ≤ (if a < d then d else a) := by split <;> omega
        _ ≤ foldMaxNat a (d :: t) := by rw [hstep]; exact h.1
    · intro x hx
      rcases List.mem_cons.mp hx with hx | hx
      · subst hx
        calc x ≤ (if a < x then x else a) := by split <;> omega
          _ ≤ foldMaxNat a (x :: t) := by rw [hstep]; exact h.1
      · rw [hstep]
        exact h.2 x hx

theorem foldMaxNat_mem (ds : List Nat) :
    ∀ a, foldMaxNat a ds = a ∨ foldMaxNat a ds ∈ ds := by
  induction ds with
  | nil => intro a; exact Or.inl rfl
  | cons d t ih =>
    intro a
    have hstep : foldMaxNat a (d :: t) = foldMaxNat (if a < d then d else a) t := rfl
    rcases ih (if a < d then d else a) with h | h
    · by_cases hda : a < d
      · right
        rw [hstep, h, if_pos hda]
        exact List.mem_cons_self d t
      · left
        rw [hstep, h, if_neg hda]
    · right
      rw [hstep]
      exact List.mem_cons_of_mem d h

/-- The number of successful results carrying status code `c`. -/
def countStatus (rs : List Result6) (c : Nat) : Nat :=
  (rs.filter (fun r => r.err.isNone && r.statusCode == c)).length

theorem statStep_some (st : Stats) (r : Result6) (e : TaskFailure6)
    (hr : r.err = some e) :
    statStep st r = { st with errorCount := st.errorCount + 1 } := by
  unfold statStep
  rw [hr]

/-- The net effect of one successful-result iteration of `statistic`'s
loop. -/
theorem statStep_none (st : Stats) (r : Result6) (hr : r.err = none) :
    statStep st r =
      { successCount := st.successCount + 1,
        errorCount := st.errorCount,
        totalDuration := st.totalDuration + r.duration,
        totalFileSize := st.totalFileSize + r.fileSize,
        totalRequestSize := st.totalRequestSize + r.requestSize,
        totalResponseSize := st.totalResponseSize + r.responseSize,
        statusCodeStats :=
          if 0 < r.statusCode then
            fun c => if c = r.statusCode then st.statusCodeStats c + 1
                     else st.statusCodeStats c
          else st.statusCodeStats,
        durMin := if r.duration < st.durMin then r.duration else st.durMin,
        durMax := if st.durMax < r.duration then r.duration else st.durMax,
        durSum := st.durSum + r.duration } := by
  unfold statStep
  rw [hr]
  by_cases h1 : 0 < r.statusCode <;> by_cases h2 : r.duration < st.durMin <;>
    by_cases h3 : st.durMax < r.duration <;> simp [h1, h2, h3]

/-- The running invariant of `statistic`'s loop over any accumulator. -/
theorem statistic_fold (rs : List Result6) : ∀ (st : Stats),
    (rs.foldl statStep st).successCount = st.successCount + (successes rs).length ∧
    (rs.foldl statStep st).errorCount
      = st.errorCount + (rs.length - (successes rs).length) ∧
    (rs.foldl statStep st).durSum = st.durSum + (successDurations rs).sum ∧
    (rs.foldl statStep st).durMin = foldMinNat st.durMin (successDurations rs) ∧
    (rs.foldl statStep st).durMax = foldMaxNat st.durMax (successDurations rs) ∧
    ∀ c, 0 < c → (rs.foldl statStep st).statusCodeStats c
      = st.statusCodeStats c + countStatus rs c := by
  induction rs with
  | nil =>
    intro st
    refine ⟨?_, ?_, ?_, rfl, rfl, ?_⟩ <;>
      simp [successes, successDurations, countStatus]
  | cons r t ih =>
    intro st
    rw [List.foldl_cons]
    have h := ih (statStep st r)
    cases hr : r.err with
    | some e =>
      have hs := statStep_some st r e hr
      have hs1 : (statStep st r).successCount = st.successCount := by rw [hs]
      have hs2 : (statStep st r).errorCount = st.errorCount + 1 := by rw [hs]
      have hs3 : (statStep st r).durSum = st.durSum := by rw [hs]
      have hs4 : (statStep st r).durMin = st.durMin := by rw [hs]
      have hs5 : (statStep st r).durMax = st.durMax := by rw [hs]
      have hs6 : (statStep st r).statusCodeStats = st.statusCodeStats := by rw [hs]
      have hfil : successes (r :: t) = successes t := by
        simp [successes, List.filter_cons, hr]
      have hsd : successDurations (r :: t) = successDurations t := by
        simp [successDurations, hfil]
      have hcount : ∀ c, countStatus (r :: t) c = countStatus t c := by
        intro c
        simp [countStatus, List.filter_cons, hr]
      have hlen : (successes t).length ≤ t.length := List.length_filter_le _ t
      refine ⟨?_, ?_, ?_, ?_, ?_, ?_⟩
      · rw [hfil, h.1, hs1]
      · rw [hfil, List.length_cons, h.2.1, hs2]
        omega
      · rw [hsd, h.2.2.1, hs3]
      · rw [hsd, h.2.2.2.1, hs4]
      · rw [hsd, h.2.2.2.2.1, hs5]
      · intro c hc
        rw [hcount c, h.2.2.2.2.2 c hc, hs6]
    | none =>
      have hs := statStep_none st r hr
      have hs1 : (statStep st r).successCount = st.successCount + 1 := by rw [hs]
      have hs2 : (statStep st r).errorCount = st.errorCount := by rw [hs]
      have hs3 : (statStep st r).durSum = st.durSum + r.duration := by rw [hs]
      have hs4 : (statStep st r).durMin
          = (if r.duration < st.durMin then r.duration else st.durMin) := by rw [hs]
      have hs5 : (statStep st r).durMax
          = (if st.durMax < r.duration then r.duration else st.durMax) := by rw [hs]
      have hs6 : (statStep st r).statusCodeStats
          = (if 0 < r.statusCode then
              fun c => if c = r.statusCode then st.statusCodeStats c + 1
                       else st.statusCodeStats c
            else st.statusCodeStats) := by rw [hs]
      have hfil : successes (r :: t) = r :: successes t := by
        simp [successes, List.filter_cons, hr]
      have hsd : successDurations (r :: t) = r.duration :: successDurations t := by
        simp [successDurations, hfil]
      refine ⟨?_, ?_, ?_, ?_, ?_, ?_⟩
      · rw [hfil, List.length_cons, h.1, hs1]
        omega
      · rw [hfil, List.length_cons, List.length_cons, h.2.1, hs2]
        omega
      · rw [hsd, List.sum_cons, h.2.2.1, hs3]
        omega
      · rw [hsd]
        have hstep : foldMinNat st.durMin (r.duration :: successDurations t)
            = foldMinNat (if r.duration < st.durMin then r.duration else st.durMin)
                (successDurations t) := rfl
        rw [hstep, h.2.2.2.1, hs4]
      · rw [hsd]
        have hstep : foldMaxNat st.durMax (r.duration :: successDurations t)
            = foldMaxNat (if st.durMax < r.duration then r.duration else st.durMax)
                (successDurations t) := rfl
        rw [hstep, h.2.2.2.2.1, hs5]
      · intro c hc
        have hcount : countStatus (r :: t) c
            = (if r.statusCode = c then 1 else 0) + countStatus t c := by
          by_cases hrc : r.statusCode = c
          · simp [countStatus, List.filter_cons, hr, hrc]
            omega
          · simp [countStatus, List.filter_cons, hr, hrc]
        rw [h.2.2.2.2.2 c hc, hcount]
        by_cases hrc : r.statusCode = c
        · have h1 : 0 < r.statusCode := by omega
          have hv : (statStep st r).statusCodeStats c = st.statusCodeStats c + 1 := by
            rw [hs6, if_pos h1]
            simp [hrc]
          rw [hv, if_pos hrc]
          omega
        · have hv : (statStep st r).statusCodeStats c = st.statusCodeStats c := by
            rw [hs6]
            by_cases h1 : 0 < r.statusCode
            · rw [if_pos h1]
              simp [Ne.symm hrc]
            · rw [if_neg h1]
          rw [hv, if_neg hrc]
          omega

def longResult : Result6 :=
  { fileName := "slow.json", fileSize := 1, requestSize := 1, responseSize := 1,
    duration := 7200000000000, statusCode := 200, err := none }

/-- C9 counterexample: a single successful result lasting two hours.  Its
least (and only) duration is 7200000000000 ns, but the reported minimum
stays at the loop's 1-hour initialization value 3600000000000 ns, so the
reported minimum is not the least duration of the successes. -/
theorem statistic_min_sentinel_counterexample :
    successDurations [longResult] = [7200000000000] ∧
    (statistic [longResult]).durMin = 3600000000000 ∧
    ¬ (statistic [longResult]).durMin ∈ successDurations [longResult] := by
  refine ⟨rfl, rfl, by decide⟩

/-- C9 amended: successes plus failures equal the number of drained
Results; `durSum` is the sum of the success durations, so the reported
average is their truncated-division mean; `durMax` is the greatest success
duration; the histogram counts, for every positive status code, the
successful results carrying it; and the reported minimum is the least
success duration capped by the 1-hour sentinel the loop starts from — it is
a lower bound on all success durations, never exceeds one hour, and equals
the least success duration whenever some success lasted at most an hour. -/
theorem statistic_totals_amended (rs : List Result6) :
    (statistic rs).successCount + (statistic rs).errorCount = rs.length ∧
    (statistic rs).successCount = (successDurations rs).length ∧
    (statistic rs).durSum = (successDurations rs).sum ∧
    (0 < (statistic rs).successCount →
      (statistic rs).durSum / (statistic rs).successCount
        = (successDurations rs).sum / (successDurations rs).length) ∧
    (∀ d ∈ successDurations rs, d ≤ (statistic rs).durMax) ∧
    (successDurations rs ≠ [] → (statistic rs).durMax ∈ successDurations rs) ∧
    (∀ c, 0 < c → (statistic rs).statusCodeStats c = countStatus rs c) ∧
    (∀ d ∈ successDurations rs, (statistic rs).durMin ≤ d) ∧
    (statistic rs).durMin ≤ timeHour ∧
    ((∃ d ∈ successDurations rs, d ≤ timeHour) →
      (statistic rs).durMin ∈ successDurations rs) := by
  have hstat : statistic rs = rs.foldl statStep initStats := rfl
  obtain ⟨ha, hb, hc, hd, he, hf⟩ := statistic_fold rs initStats
  rw [show initStats.successCount = 0 from rfl, Nat.zero_add] at ha
  rw [show initStats.errorCount = 0 from rfl, Nat.zero_add] at hb
  rw [show initStats.durSum = 0 from rfl, Nat.zero_add] at hc
  rw [show initStats.durMin = timeHour from rfl] at hd
  rw [show initStats.durMax = 0 from rfl] at he
  have hf' : ∀ c, 0 < c →
      (rs.foldl statStep initStats).statusCodeStats c = countStatus rs c := by
    intro c hcpos
    rw [hf c hcpos, show initStats.statusCodeStats c = 0 from rfl, Nat.zero_add]
  have hlensd : (successDurations rs).length = (successes rs).length := by
    simp [successDurations]
  have hlenfil : (successes rs).length ≤ rs.length := List.length_filter_le _ rs
  refine ⟨?_, ?_, ?_, ?_, ?_, ?_, ?_, ?_, ?_, ?_⟩
  · rw [hstat, ha, hb]
    omega
  · rw [hstat, ha, hlensd]
  · rw [hstat, hc]
  · intro _
    rw [hstat, hc, ha, hlensd]
  · intro d hdmem
    rw [hstat, he]
    exact (foldMaxNat_ge (successDurations rs) 0).2 d hdmem
  · intro hne
    rw [hstat, he]
    rcases foldMaxNat_mem (successDurations rs) 0 with hm | hm
    · cases hsd : successDurations rs with
      | nil => exact absurd hsd hne
      | cons d ds =>
        rw [hsd] at hm
        have hdle : d ≤ foldMaxNat 0 (d :: ds) :=
          (foldMaxNat_ge (d :: ds) 0).2 d (List.mem_cons_self d ds)
        rw [hm] at hdle
        rw [hm]
        have hd0 : d = 0 := by omega
        rw [hd0]
        exact List.mem_cons_self 0 ds
    · exact hm
  · intro c hcpos
    rw [hstat]
    exact hf' c hcpos
  · intro d hdmem
    rw [hstat, hd]
    exact (foldMinNat_le (successDurations rs) timeHour).2 d hdmem
  · rw [hstat, hd]
    exact (foldMinNat_le (successDurations rs) timeHour).1
  · rintro ⟨d, hdmem, hdle⟩
    rw [hstat, hd]
    rcases foldMinNat_mem (successDurations rs) timeHour with hm | hm
    · have hlb : foldMinNat timeHour (successDurations rs) ≤ d :=
        (foldMinNat_le (successDurations rs) timeHour).2 d hdmem
      rw [hm] at hlb
      rw [hm]
      have hdt : d = timeHour := by omega
      rw [← hdt]
      exact hdmem
    · exact hm

def shortResult : Result6 :=
  { fileName := "ok.json", fileSize := 2, requestSize := 2, responseSize := 3,
    duration := 5, statusCode := 200, err := none }

theorem statistic_totals_amended_witness :
    (statistic [shortResult]).successCount + (statistic [shortResult]).errorCount
      = 1 ∧
    (statistic [shortResult]).durSum / (statistic [shortResult]).successCount
      = (successDurations [shortResult]).sum / (successDurations [shortResult]).length ∧
    (statistic [shortResult]).statusCodeStats 200 = countStatus [shortResult] 200 ∧
    (statistic [shortResult]).durMin ∈ successDurations [shortResult] := by
  have h := statistic_totals_amended [shortResult]
  exact ⟨h.1, h.2.2.2.1 (by decide), h.2.2.2.2.2.2.1 200 (by decide),
    h.2.2.2.2.2.2.2.2.2 ⟨5, by decide, by decide⟩⟩
